import Mathlib

/-!
Verification development for the OASIS-Docs csaf-sandbox HTML post-processor
(`.github/src/step_1_markdown_to_html_converter_V3_0.py`).

The post-processor is a sequence of DOM rewrite passes over the HTML tree
produced by `pandoc -s`.  We embed the parsed document shallowly:

* `Node` is the parsed HTML tree: an element carries a unique identifier
  (standing for BeautifulSoup object identity, which the source code relies
  on via `is` comparisons and in-place mutation of materialised `find_all`
  lists), a tag name, an attribute list and an ordered child list; text
  nodes carry their string.
* `Doc` is a standalone document in the shape `pandoc -s` emits and the
  script assumes (`soup.head` and `soup.body` both present): the child list
  of the `head` element and the child list of the `body` element.
  `find_all` over the whole soup enumerates the head subtree before the
  body subtree, which is the document order of such a document.
* Mutation is modelled by pure tree rewriting.  Where the source iterates
  over a materialised node list and destroys nodes mid-loop
  (`_enforce_single_oasis_logo`), we materialise element identifiers and
  look each one up in the current tree; touching the attributes of a node
  destroyed by `Tag.decompose` raises in BeautifulSoup, which we model as
  `Except.error`.
* Network fetches (`requests.get`) are an oracle `FetchEnv`; the local
  `images/` and `styles/` directories and the error log are an explicit
  `FsState` threaded through the asset-localisation passes.

Python string primitives (`str.strip`, `os.path.basename`,
`urllib.parse.urlparse`, the two regexes) are translated directly below.
-/

namespace Csaf

/-- Characters removed by Python's `str.strip()` (ASCII whitespace). -/
def pyIsSpace (c : Char) : Bool :=
  c = ' ' || c = '\t' || c = '\n' || c = '\r' || c = '\x0c' || c = '\x0b'

/-- Python `str.strip()` on a character list. -/
def pyStripList (l : List Char) : List Char :=
  ((l.dropWhile pyIsSpace).reverse.dropWhile pyIsSpace).reverse

/-- Python `str.strip()`. -/
def pyStrip (s : String) : String :=
  String.mk (pyStripList s.toList)

/-- Python `str.lstrip("/")`. -/
def lstripSlash (s : String) : String :=
  String.mk (s.toList.dropWhile (fun c => c = '/'))

/-- Python `str.split()` with no argument: split on whitespace runs. -/
def pySplitWs (s : String) : List String :=
  ((s.toList.splitOnP pyIsSpace).filter (fun l => l ≠ [])).map String.mk

/-- Does `s` begin with `pat`? -/
def listBegins : List Char → List Char → Bool
  | [], _ => true
  | _ :: _, [] => false
  | p :: ps, x :: xs => p = x && listBegins ps xs

/-- Does `s` contain `pat` as a contiguous sublist? -/
def listContainsSub (pat : List Char) : List Char → Bool
  | [] => pat.isEmpty
  | x :: xs => listBegins pat (x :: xs) || listContainsSub pat xs

/-- Substring test: `pat in hay` for Python strings. -/
def containsSub (hay pat : String) : Bool :=
  listContainsSub pat.toList hay.toList

/-- Does `s` end with `pat`? -/
def listEnds (pat s : List Char) : Bool :=
  listBegins pat.reverse s.reverse

/-- Does the string `s` begin with `pre`? -/
def strBegins (pre s : String) : Bool :=
  listBegins pre.toList s.toList

/-- ASCII lowercasing, character by character (`str.lower()`; all strings
involved are ASCII). -/
def lowerStr (s : String) : String :=
  String.mk (s.toList.map Char.toLower)

/-- Python `os.path.basename`: everything after the last slash. -/
def pyBasename (s : String) : String :=
  String.mk ((s.toList.reverse.takeWhile (fun c => !(c = '/'))).reverse)

/-- Split a character list at the first occurrence of `c`, dropping it. -/
def splitAtFirst (c : Char) : List Char → Option (List Char × List Char)
  | [] => none
  | x :: xs =>
    if x = c then some ([], xs)
    else (splitAtFirst c xs).map (fun p => (x :: p.1, p.2))

/-- Result of `urllib.parse.urlparse` restricted to the components the
script reads (`params` splitting never matters for the URLs handled). -/
structure UrlParts where
  scheme : String
  netloc : String
  path : String
  query : String
  fragment : String
deriving Repr, DecidableEq

/-- Characters allowed in a URL scheme after the first (CPython
`urllib.parse.scheme_chars`). -/
def isSchemeChar (c : Char) : Bool :=
  c.isAlpha || c.isDigit || c = '+' || c = '-' || c = '.'

/-- CPython `urlsplit` scheme detection: a leading alphabetic character,
scheme characters up to the first colon. Returns the (lowercased) scheme
and the remainder, or no scheme and the input unchanged. -/
def splitScheme (l : List Char) : String × List Char :=
  match splitAtFirst ':' l with
  | none => ("", l)
  | some (bef, aft) =>
    if bef ≠ [] && (bef.headD ' ').isAlpha && bef.all isSchemeChar then
      (lowerStr (String.mk bef), aft)
    else ("", l)

/-- CPython `urlsplit` netloc detection: after `//`, up to `/`, `?` or `#`. -/
def splitNetloc (l : List Char) : String × List Char :=
  match l with
  | '/' :: '/' :: rest =>
    let nl := rest.takeWhile (fun c => !(c = '/' || c = '?' || c = '#'))
    (String.mk nl, rest.drop nl.length)
  | _ => ("", l)

/-- Model of `urllib.parse.urlparse` (scheme, then netloc, then fragment at
the first `#`, then query at the first `?`; the rest is the path). -/
def urlParse (s : String) : UrlParts :=
  let p1 := splitScheme s.toList
  let p2 := splitNetloc p1.2
  let pf := match splitAtFirst '#' p2.2 with
    | some q => (q.1, String.mk q.2)
    | none => (p2.2, "")
  let pq := match splitAtFirst '?' pf.1 with
    | some q => (String.mk q.1, String.mk q.2)
    | none => (String.mk pf.1, "")
  ⟨p1.1, p2.1, pq.1, pq.2, pf.2⟩

/-- Canonical public logo URL (`MarkdownToHtmlConverter.logo_canonical_remote`). -/
def logoCanonicalRemote : String :=
  "https://docs.oasis-open.org/templates/OASISLogo-v3.0.png"

/-- Model of `re.match(r".*/OASISLogo-v3\.0\.png$", src, re.IGNORECASE)`:
the string (case-folded) ends with the literal suffix, the part matched by
`.*` contains no newline, and `$` also matches before one trailing newline. -/
def regexLogoOk (s : String) : Bool :=
  let t := (lowerStr s).toList
  let core := fun (u : List Char) =>
    listEnds ("/oasislogo-v3.0.png".toList) u &&
      ((u.take (u.length - 19)).all (fun c => !(c = '\n')))
  core t || (t.getLast? = some '\n' && core t.dropLast)

/-- Model of `MarkdownToHtmlConverter._looks_like_logo_src`. -/
def looksLikeLogoSrc (src : String) : Bool :=
  if src = "" then false
  else
    containsSub src "OASISLogo-v3.0.png" || src = logoCanonicalRemote || regexLogoOk src

/-! ## The document tree -/

/-- A parsed HTML node: an element with identity, tag, attributes and
children, or a text node. -/
inductive Node : Type where
  | text : String → Node
  | elem : Nat → String → List (String × String) → List Node → Node

/-- A standalone document as produced by `pandoc -s`: the children of the
`head` element and the children of the `body` element. -/
structure Doc where
  headChildren : List Node
  bodyChildren : List Node

namespace Node

/-- Is this node an element? -/
def isElemB : Node → Bool
  | .text _ => false
  | .elem _ _ _ _ => true

/-- Element identifier, if an element. -/
def idOf? : Node → Option Nat
  | .text _ => none
  | .elem i _ _ _ => some i

/-- Tag name, if an element. -/
def tagOf? : Node → Option String
  | .text _ => none
  | .elem _ t _ _ => some t

end Node

/-- First value bound to attribute `k` (`Tag.get`). -/
def getAttr (attrs : List (String × String)) (k : String) : Option String :=
  (attrs.find? (fun kv => kv.1 = k)).map (fun kv => kv.2)

/-- Set attribute `k` to `v` (`tag[k] = v`): replace in place, or append. -/
def setAttr (attrs : List (String × String)) (k v : String) : List (String × String) :=
  if attrs.any (fun kv => kv.1 = k) then
    attrs.map (fun kv => if kv.1 = k then (k, v) else kv)
  else attrs ++ [(k, v)]

/-- Drop attribute `k` (`tag.attrs.pop(k, None)` / `del tag[k]`). -/
def popAttr (attrs : List (String × String)) (k : String) : List (String × String) :=
  attrs.filter (fun kv => !(kv.1 = k))

/-- Attribute lookup on a node. -/
def Node.attr (n : Node) (k : String) : Option String :=
  match n with
  | .text _ => none
  | .elem _ _ a _ => getAttr a k

/-- Does the node carry element identifier `i`? -/
def hasId (i : Nat) : Node → Bool
  | .text _ => false
  | .elem j _ _ _ => j = i

/-! ## Generic tree operations -/

mutual

/-- All element identifiers in a node, in document (pre-)order. -/
def nodeIds : Node → List Nat
  | .text _ => []
  | .elem i _ _ cs => i :: forestIds cs

/-- All element identifiers in a forest, in document order. -/
def forestIds : List Node → List Nat
  | [] => []
  | n :: ns => nodeIds n ++ forestIds ns

end

mutual

/-- Find the element with identifier `i` in a subtree. -/
def lookupNode (i : Nat) : Node → Option Node
  | .text _ => none
  | .elem j t a cs =>
    if j = i then some (.elem j t a cs) else lookupForest i cs

/-- Find the element with identifier `i` in a forest. -/
def lookupForest (i : Nat) : List Node → Option Node
  | [] => none
  | n :: ns =>
    match lookupNode i n with
    | some r => some r
    | none => lookupForest i ns

end

mutual

/-- Remove the element with identifier `i` (with its whole subtree,
`Tag.decompose` / `Tag.extract`). -/
def removeIdNode (i : Nat) : Node → List Node
  | .text s => [.text s]
  | .elem j t a cs =>
    if j = i then [] else [.elem j t a (removeIdForest i cs)]

/-- Remove the element with identifier `i` from a forest. -/
def removeIdForest (i : Nat) : List Node → List Node
  | [] => []
  | n :: ns => removeIdNode i n ++ removeIdForest i ns

end

mutual

/-- Replace the element with identifier `i` by the given node list. -/
def replaceIdNode (i : Nat) (repl : List Node) : Node → List Node
  | .text s => [.text s]
  | .elem j t a cs =>
    if j = i then repl else [.elem j t a (replaceIdForest i repl cs)]

/-- Replace the element with identifier `i` in a forest. -/
def replaceIdForest (i : Nat) (repl : List Node) : List Node → List Node
  | [] => []
  | n :: ns => replaceIdNode i repl n ++ replaceIdForest i repl ns

end

mutual

/-- Parent element of the element with identifier `i`, searching a subtree. -/
def parentInNode (i : Nat) : Node → Option Node
  | .text _ => none
  | .elem j t a cs =>
    if cs.any (hasId i) then some (.elem j t a cs) else parentInForest i cs

/-- Parent element of the element with identifier `i`, searching a forest. -/
def parentInForest (i : Nat) : List Node → Option Node
  | [] => none
  | n :: ns =>
    match parentInNode i n with
    | some r => some r
    | none => parentInForest i ns

end

mutual

/-- All elements whose tag is in `ts`, in document order (`find_all`). -/
def findTagsNode (ts : List String) : Node → List Node
  | .text _ => []
  | .elem j t a cs =>
    (if ts.contains t then [Node.elem j t a cs] else []) ++ findTagsForest ts cs

/-- All elements whose tag is in `ts` in a forest, in document order. -/
def findTagsForest (ts : List String) : List Node → List Node
  | [] => []
  | n :: ns => findTagsNode ts n ++ findTagsForest ts ns

end

mutual

/-- Concatenated text of all descendant text nodes (`get_text()`). -/
def nodeText : Node → String
  | .text s => s
  | .elem _ _ _ cs => forestText cs

/-- Concatenated text of a forest. -/
def forestText : List Node → String
  | [] => ""
  | n :: ns => nodeText n ++ forestText ns

end

/-- First element node of a child list (`_first_tag_child`). -/
def firstElemChild (l : List Node) : Option Node :=
  l.find? Node.isElemB

/-- The suffix of a child list strictly after the element with id `i`
(`find_next_siblings` / the `next_sibling` chain). -/
def listAfterId (i : Nat) : List Node → List Node
  | [] => []
  | n :: ns => if hasId i n then ns else listAfterId i ns

/-- Insert `x` immediately before the element with id `i` (top level,
`PageElement.insert_before` into the body). -/
def insertBeforeIdTop (i : Nat) (x : Node) : List Node → List Node
  | [] => []
  | n :: ns => if hasId i n then x :: n :: ns else n :: insertBeforeIdTop i x ns

/-- Insert `x` immediately after the element with id `i` (top level,
`PageElement.insert_after`). -/
def insertAfterIdTop (i : Nat) (x : Node) : List Node → List Node
  | [] => []
  | n :: ns => if hasId i n then n :: x :: ns else n :: insertAfterIdTop i x ns

/-- Rename the tag of a node when it carries identifier `i`
(`first_heading.name = "h1big"`). -/
def renameNodeIf (i : Nat) (newTag : String) (n : Node) : Node :=
  match n with
  | .elem j t a cs => if j = i then Node.elem j newTag a cs else Node.elem j t a cs
  | .text s => Node.text s

/-- Rename the tag of the element with id `i` in a top-level list. -/
def renameIdTop (i : Nat) (newTag : String) : List Node → List Node
  | [] => []
  | n :: ns => renameNodeIf i newTag n :: renameIdTop i newTag ns

namespace Doc

/-- All element identifiers of the document, in document order. -/
def ids (d : Doc) : List Nat :=
  forestIds d.headChildren ++ forestIds d.bodyChildren

/-- Well-formed document: element identifiers are pairwise distinct. -/
def wf (d : Doc) : Prop :=
  d.ids.Nodup

/-- Find element by identifier, head subtree first (document order). -/
def lookup (d : Doc) (i : Nat) : Option Node :=
  match lookupForest i d.headChildren with
  | some r => some r
  | none => lookupForest i d.bodyChildren

/-- Remove the element with identifier `i` anywhere in the document. -/
def removeId (d : Doc) (i : Nat) : Doc :=
  ⟨removeIdForest i d.headChildren, removeIdForest i d.bodyChildren⟩

/-- All elements with tag in `ts`, in document order (`soup.find_all`). -/
def findTags (d : Doc) (ts : List String) : List Node :=
  findTagsForest ts d.headChildren ++ findTagsForest ts d.bodyChildren

/-- First element with the given tag (`soup.find(tag)`). -/
def firstTagged (d : Doc) (t : String) : Option Node :=
  (d.findTags [t]).head?

/-- First element child of the body (`_first_tag_child(body)`). -/
def firstBodyElem (d : Doc) : Option Node :=
  firstElemChild d.bodyChildren

end Doc

/-- Where the parent of an element sits. -/
inductive ParentLoc where
  | topHead
  | topBody
  | under (p : Node)

/-- Parent of the element with identifier `i`: the `head` element itself,
the `body` element itself, or an inner element (`img.parent`). -/
def Doc.parentOf (d : Doc) (i : Nat) : Option ParentLoc :=
  if d.headChildren.any (hasId i) then some .topHead
  else if d.bodyChildren.any (hasId i) then some .topBody
  else
    match parentInForest i d.headChildren with
    | some p => some (.under p)
    | none => (parentInForest i d.bodyChildren).map ParentLoc.under

/-! ## Logo predicates and `_enforce_single_oasis_logo` -/

/-- Model of `_is_canonical_logo_img`: an `img` whose stripped `src` looks
like the logo, whose stripped `alt` is exactly `"OASIS Logo"`, whose parent
is a `p` that is a direct child of the body and is the body's first element
child. -/
def isCanonicalLogoImg (d : Doc) (n : Node) : Bool :=
  match n with
  | Node.text _ => false
  | Node.elem i t attrs _ =>
    t = "img" &&
    looksLikeLogoSrc (pyStrip ((getAttr attrs "src").getD "")) &&
    pyStrip ((getAttr attrs "alt").getD "") = "OASIS Logo" &&
    (match d.parentOf i with
     | some (ParentLoc.under (Node.elem pj pt _ _)) =>
       pt = "p" && d.bodyChildren.any (hasId pj) &&
       (match d.firstBodyElem with
        | some fe => hasId pj fe
        | none => false)
     | _ => false)

/-- The paragraph-contents test in `_enforce_single_oasis_logo`: every
child is an `img` element or whitespace-only text. -/
def allImgOrWs (cs : List Node) : Bool :=
  cs.all fun c =>
    match c with
    | Node.text s => pyStrip s = ""
    | Node.elem _ t _ _ => t = "img"

/-- One iteration of the duplicate-logo removal loop of
`_enforce_single_oasis_logo`, for identifier `i` of the materialised
`find_all("img")` list.  Reading the attributes of an element destroyed by
an earlier iteration raises `AttributeError` in BeautifulSoup, modelled as
an error. -/
def logoCleanupStep (d : Doc) (i : Nat) : Except String Doc :=
  match d.lookup i with
  | none => .error "attribute access on a decomposed element"
  | some n =>
    let src := (n.attr "src").getD ""
    let alt := (n.attr "alt").getD ""
    if containsSub src "OASISLogo" || pyStrip alt = "OASIS Logo" then
      if isCanonicalLogoImg d n then pure d
      else
        match d.parentOf i with
        | some (ParentLoc.under (Node.elem pj pt _ pcs)) =>
          if pt = "p" && allImgOrWs pcs then pure (d.removeId pj)
          else pure (d.removeId i)
        | _ => pure (d.removeId i)
    else pure d

/-- Model of `_enforce_single_oasis_logo`.  `fresh` supplies identifiers
for nodes created via `soup.new_tag` and must exceed every identifier in
the document. -/
def enforceSingleOasisLogo (fresh : Nat) (d : Doc) : Except String (Doc × Nat) := do
  let imgIds := (d.findTags ["img"]).filterMap Node.idOf?
  let d ← imgIds.foldlM logoCleanupStep d
  let currentGood :=
    match d.firstBodyElem with
    | some (Node.elem _ "p" _ pcs) =>
      (match (pcs.find? (fun (c : Node) => c.tagOf? = some "img")).orElse
          (fun _ => (findTagsForest ["img"] pcs).head?) with
       | some img => isCanonicalLogoImg d img
       | none => false)
    | _ => false
  let st ←
    if currentGood then pure (d, fresh)
    else
      let good? := (d.findTags ["img"]).find? fun (n : Node) =>
        looksLikeLogoSrc ((n.attr "src").getD "") && ((n.attr "alt").getD "") = "OASIS Logo"
      match good? with
      | some img => do
        let gi := (img.idOf?).getD 0
        let dcf :=
          match d.parentOf gi with
          | some (ParentLoc.under (Node.elem pj "p" _ _)) => (d, pj, fresh)
          | _ =>
            (⟨replaceIdForest gi [Node.elem fresh "p" [] [img]] d.headChildren,
              replaceIdForest gi [Node.elem fresh "p" [] [img]] d.bodyChildren⟩,
             fresh, fresh + 1)
        let d := dcf.1
        let containerId := dcf.2.1
        let fresh := dcf.2.2
        match d.firstBodyElem with
        | some ft =>
          if hasId containerId ft then
            throw "cannot insert an element before itself"
          else
            match d.lookup containerId with
            | some cNode =>
              let d := d.removeId containerId
              pure ((⟨d.headChildren,
                insertBeforeIdTop ((ft.idOf?).getD 0) cNode d.bodyChildren⟩ : Doc), fresh)
            | none => throw "promoted container not found"
        | none =>
          match d.lookup containerId with
          | some cNode =>
            let d := d.removeId containerId
            pure ((⟨d.headChildren, cNode :: d.bodyChildren⟩ : Doc), fresh)
          | none => throw "promoted container not found"
      | none =>
        let img := Node.elem fresh "img"
          [("src", logoCanonicalRemote), ("alt", "OASIS Logo")] []
        let p := Node.elem (fresh + 1) "p" [] [img]
        match d.firstBodyElem with
        | some ft =>
          pure ((⟨d.headChildren,
            insertBeforeIdTop ((ft.idOf?).getD 0) p d.bodyChildren⟩ : Doc), fresh + 2)
        | none => pure ((⟨d.headChildren, p :: d.bodyChildren⟩ : Doc), fresh + 2)
  let d2 := st.1
  let fresh2 := st.2
  let imgIds2 := (d2.findTags ["img"]).filterMap Node.idOf?
  let d3 ← imgIds2.foldlM logoCleanupStep d2
  pure (d3, fresh2)

/-! ## `_fix_top_banner_block` -/

/-- Heading tag names recognised by the banner and heading passes. -/
def headingTagNames : List String := ["h1", "h1big", "h2", "h3", "h4", "h5", "h6"]

/-- The logo-paragraph search of `_fix_top_banner_block`: the first direct
`p` child of the body whose first direct `img` child is canonical. -/
def findLogoP (d : Doc) : Option Node :=
  d.bodyChildren.find? fun n =>
    match n with
    | Node.elem _ "p" _ cs =>
      (match cs.find? (fun (c : Node) => c.tagOf? = some "img") with
       | some img => isCanonicalLogoImg d img
       | none => false)
    | _ => false

/-- Is the node an `hr` whose `style` contains the page-break marker? -/
def isMarkedHr (n : Node) : Bool :=
  match n with
  | Node.elem _ "hr" a _ =>
    containsSub ((getAttr a "style").getD "") "page-break-before: avoid"
  | _ => false

/-- Drop `hr` elements until the node with id `fhId` is reached (the
`while node and node != first_heading` walk). -/
def removeHrsUntil (fhId : Nat) : List Node → List Node
  | [] => []
  | n :: ns =>
    if hasId fhId n then n :: ns
    else if n.tagOf? = some "hr" then removeHrsUntil fhId ns
    else n :: removeHrsUntil fhId ns

/-- Drop `hr` elements strictly between the nodes with ids `lpId` and
`fhId`. -/
def removeHrsBetween (lpId fhId : Nat) : List Node → List Node
  | [] => []
  | n :: ns =>
    if hasId lpId n then n :: removeHrsUntil fhId ns
    else n :: removeHrsBetween lpId fhId ns

/-- Model of `_fix_top_banner_block`. -/
def fixTopBanner (fresh : Nat) (d : Doc) : Doc × Nat :=
  match findLogoP d with
  | none => (d, fresh)
  | some lp =>
    let lpId := (lp.idOf?).getD 0
    match (listAfterId lpId d.bodyChildren).find?
        (fun (n : Node) => (n.tagOf?).elim false (headingTagNames.contains ·)) with
    | none => (d, fresh)
    | some fh =>
      let fhId := (fh.idOf?).getD 0
      let body1 := removeHrsBetween lpId fhId d.bodyChildren
      let ne := (listAfterId lpId body1).find? Node.isElemB
      let alreadyOk := (ne.map isMarkedHr).getD false
      let neIsFh := (ne.map (hasId fhId)).getD false
      let insertIt := !alreadyOk && !neIsFh
      let body2 :=
        if insertIt then
          insertAfterIdTop lpId
            (Node.elem fresh "hr" [("style", "page-break-before: avoid")] []) body1
        else body1
      let fresh2 := if insertIt then fresh + 1 else fresh
      let body3 := if fh.tagOf? = some "h1" then renameIdTop fhId "h1big" body2 else body2
      (⟨d.headChildren, body3⟩, fresh2)

/-! ## `_remove_duplicate_heading_anchors` -/

/-- Model of `Tag.string`: the single string reached through a chain of
single children, or `none`. -/
def nodeString : Node → Option String
  | Node.text s => some s
  | Node.elem _ _ _ cs =>
    match cs with
    | [c] => nodeString c
    | _ => none

mutual

/-- Model of `_remove_duplicate_heading_anchors` in simultaneous form:
`anc` collects the non-empty `id` attributes of enclosing headings; an
anchor whose `id` is among them is replaced by its string
(`anchor.replace_with(anchor.string)`), or removed when its string is
`None` or empty (`anchor.decompose()`). -/
def dedupNode (anc : List String) : Node → List Node
  | Node.text s => [Node.text s]
  | Node.elem i t a cs =>
    if t = "a" && ((getAttr a "id").elim false (anc.contains ·)) then
      match nodeString (Node.elem i t a cs) with
      | some s => if s = "" then [] else [Node.text s]
      | none => []
    else
      let anc2 :=
        if headingTagNames.contains t then
          match getAttr a "id" with
          | some v => if v = "" then anc else v :: anc
          | none => anc
        else anc
      [Node.elem i t a (dedupForest anc2 cs)]

/-- `dedupNode` over a forest. -/
def dedupForest (anc : List String) : List Node → List Node
  | [] => []
  | n :: ns => dedupNode anc n ++ dedupForest anc ns

end

/-- The duplicate-heading-anchor pass over the whole document. -/
def removeDuplicateHeadingAnchors (d : Doc) : Doc :=
  ⟨dedupForest [] d.headChildren, dedupForest [] d.bodyChildren⟩

/-! ## `_normalize_same_doc_anchors_for_web` -/

/-- Per-anchor rewrite of `_normalize_same_doc_anchors_for_web`; nodes
other than anchors carrying an `href` attribute are untouched. -/
def normalizeAnchorNode (outBase : String) (n : Node) : Node :=
  match n with
  | Node.elem i t attrs cs =>
    if t = "a" then
      match getAttr attrs "href" with
      | none => n
      | some hrefRaw =>
        let href := pyStrip hrefRaw
        if href = "" then n
        else if strBegins "#" href then Node.elem i t (popAttr attrs "target") cs
        else
          let p := urlParse href
          if p.fragment = "" then n
          else
            let sameDoc :=
              if p.scheme = "" && p.netloc = "" then
                p.path = "" || pyBasename p.path = outBase
              else pyBasename p.path = outBase
            if sameDoc then
              Node.elem i t (popAttr (setAttr attrs "href" ("#" ++ p.fragment)) "target") cs
            else n
    else n
  | _ => n

mutual

/-- The anchor-normalisation pass over a subtree. -/
def normMapNode (outBase : String) : Node → Node
  | Node.text s => Node.text s
  | Node.elem i t a cs =>
    normalizeAnchorNode outBase (Node.elem i t a (normMapForest outBase cs))

/-- The anchor-normalisation pass over a forest. -/
def normMapForest (outBase : String) : List Node → List Node
  | [] => []
  | n :: ns => normMapNode outBase n :: normMapForest outBase ns

end

/-- Model of `_normalize_same_doc_anchors_for_web` over the document. -/
def normalizeSameDocAnchors (outBase : String) (d : Doc) : Doc :=
  ⟨normMapForest outBase d.headChildren, normMapForest outBase d.bodyChildren⟩

/-! ## `_convert_plain_urls_to_links` -/

/-- Characters allowed in the tail of a bare URL (the regex class excludes
whitespace and the opening angle bracket). -/
def urlTailOk (c : Char) : Bool :=
  !(pyIsSpace c || c = '<')

/-- Text segment pending in the linkifier scanner, as a node list. -/
def flushText (pending : List Char) : List Node :=
  if pending.isEmpty then [] else [Node.text (String.mk pending)]

/-- Scanner for the bare-URL substitution of `_convert_plain_urls_to_links`:
wrap every maximal match of scheme-slash-slash followed by at least one
allowed character in an anchor whose href and text are the match.  `fuel`
bounds the recursion; callers pass the text length plus one, which cannot
run out because every step consumes at least one character. -/
def linkifyScan (fuel fresh : Nat) (pending : List Char) (acc : List Node)
    (l : List Char) : List Node × Nat :=
  match fuel, l with
  | _, [] => (acc ++ flushText pending, fresh)
  | 0, rest => (acc ++ flushText (pending ++ rest), fresh)
  | Nat.succ fuel, c :: rest =>
    let m8 := listBegins "https://".toList (c :: rest)
    let m7 := listBegins "http://".toList (c :: rest)
    if m8 || m7 then
      let k := if m8 then 8 else 7
      let tl := (c :: rest).drop k
      let body := tl.takeWhile urlTailOk
      if body.isEmpty then linkifyScan fuel fresh (pending ++ [c]) acc rest
      else
        let url := String.mk ((c :: rest).take k ++ body)
        let acc2 := acc ++ flushText pending ++
          [Node.elem fresh "a" [("href", url)] [Node.text url]]
        linkifyScan fuel (fresh + 1) [] acc2 (tl.drop body.length)
    else linkifyScan fuel fresh (pending ++ [c]) acc rest

mutual

/-- Model of `_convert_plain_urls_to_links` on a subtree: paragraphs with
no element child (`p.find(True)` is `None`) and whose text contains
`"http"` get their contents replaced by the linkified segments.  The
serialise-and-reparse round trip surrounding this pass in the source is
modelled as the identity. -/
def linkifyNode (fresh : Nat) : Node → Node × Nat
  | Node.text s => (Node.text s, fresh)
  | Node.elem i t a cs =>
    if t = "p" && !(cs.any Node.isElemB) then
      let txt := forestText cs
      if containsSub txt "http" then
        let res := linkifyScan (txt.toList.length + 1) fresh [] [] txt.toList
        (Node.elem i t a res.1, res.2)
      else (Node.elem i t a cs, fresh)
    else
      let res := linkifyForest fresh cs
      (Node.elem i t a res.1, res.2)

/-- The linkifier over a forest. -/
def linkifyForest (fresh : Nat) : List Node → List Node × Nat
  | [] => ([], fresh)
  | n :: ns =>
    let r1 := linkifyNode fresh n
    let r2 := linkifyForest r1.2 ns
    (r1.1 :: r2.1, r2.2)

end

/-- The linkifier over the document. -/
def linkifyDoc (fresh : Nat) (d : Doc) : Doc × Nat :=
  let rh := linkifyForest fresh d.headChildren
  let rb := linkifyForest rh.2 d.bodyChildren
  (⟨rh.1, rb.1⟩, rb.2)

/-! ## Asset localisation -/

/-- Oracle for `requests.get(url)` followed by `raise_for_status`: does
fetching the URL succeed? -/
structure FetchEnv where
  fetchOk : String → Bool

/-- Filesystem and log state threaded through asset localisation: the
basenames present in the local `images/` and `styles/` directories, and
the logged error messages. -/
structure FsState where
  imageFiles : List String
  styleFiles : List String
  log : List String

/-- Basename under which a fetched stylesheet is stored
(`os.path.basename(pr.path) or "style.css"`). -/
def cssFileName (href : String) : String :=
  if pyBasename (urlParse href).path = "" then "style.css"
  else pyBasename (urlParse href).path

/-- Basename under which a fetched image is stored
(`os.path.basename(pr.path) or "image"`). -/
def imgFileName (src : String) : String :=
  if pyBasename (urlParse src).path = "" then "image"
  else pyBasename (urlParse src).path

/-- Per-link step of the CSS localisation block (under the
`HTML_LOCALIZE_CSS` flag) of `_post_process_html`. -/
def localizeCssLink (env : FetchEnv) (st : FsState) (n : Node) : Node × FsState :=
  match n with
  | Node.elem i t attrs cs =>
    if t = "link" then
      match getAttr attrs "rel", getAttr attrs "href" with
      | some relV, some hrefRaw =>
        let relFirst := lowerStr ((pySplitWs relV).headD "")
        if relFirst ≠ "stylesheet" then (n, st)
        else
          let href := pyStrip hrefRaw
          let pr := urlParse href
          if pr.scheme = "http" || pr.scheme = "https" then
            let cssName := cssFileName href
            if st.styleFiles.contains cssName then
              (Node.elem i t (setAttr attrs "href" ("styles/" ++ cssName)) cs, st)
            else if env.fetchOk href then
              (Node.elem i t (setAttr attrs "href" ("styles/" ++ cssName)) cs,
               { st with styleFiles := st.styleFiles ++ [cssName] })
            else
              (n, { st with log := st.log ++ ["Failed to download CSS: " ++ href] })
          else (n, st)
      | _, _ => (n, st)
    else (n, st)
  | _ => (n, st)

mutual

/-- CSS localisation over a subtree, in document order. -/
def cssMapNode (env : FetchEnv) (st : FsState) : Node → Node × FsState
  | Node.text s => (Node.text s, st)
  | Node.elem i t a cs =>
    let r1 := localizeCssLink env st (Node.elem i t a cs)
    match r1.1 with
    | Node.elem i2 t2 a2 _ =>
      let r2 := cssMapForest env r1.2 cs
      (Node.elem i2 t2 a2 r2.1, r2.2)
    | x => (x, r1.2)

/-- CSS localisation over a forest, in document order. -/
def cssMapForest (env : FetchEnv) (st : FsState) : List Node → List Node × FsState
  | [] => ([], st)
  | n :: ns =>
    let r1 := cssMapNode env st n
    let r2 := cssMapForest env r1.2 ns
    (r1.1 :: r2.1, r2.2)

end

/-- CSS localisation over the document. -/
def cssLocalizeDoc (env : FetchEnv) (st : FsState) (d : Doc) : Doc × FsState :=
  let rh := cssMapForest env st d.headChildren
  let rb := cssMapForest env rh.2 d.bodyChildren
  (⟨rh.1, rb.1⟩, rb.2)

/-- Per-image step of the image localisation loop of `_post_process_html`:
the rewritten attribute list, or `none` when the image is dropped
(`img.decompose()` on fetch failure), together with the new state. -/
def localizeImgAttrs (env : FetchEnv) (st : FsState) (attrs : List (String × String)) :
    Option (List (String × String)) × FsState :=
  match getAttr attrs "src" with
  | none => (some attrs, st)
  | some raw =>
    let src := pyStrip raw
    let pr := urlParse src
    if pr.scheme = "http" || pr.scheme = "https" then
      let fn := imgFileName src
      if st.imageFiles.contains fn then
        (some (popAttr (setAttr attrs "src" ("images/" ++ fn)) "srcset"), st)
      else if env.fetchOk src then
        (some (popAttr (setAttr attrs "src" ("images/" ++ fn)) "srcset"),
         { st with imageFiles := st.imageFiles ++ [fn] })
      else
        (none, { st with log := st.log ++ ["Failed to download image " ++ src] })
    else (some attrs, st)

mutual

/-- Image localisation over a subtree, in document order.  Under
`html.parser` the `img` tag is a void element, so images have no children
to recurse into. -/
def imgMapNode (env : FetchEnv) (st : FsState) : Node → List Node × FsState
  | Node.text s => ([Node.text s], st)
  | Node.elem i t a cs =>
    if t = "img" then
      let r := localizeImgAttrs env st a
      match r.1 with
      | some a2 => ([Node.elem i t a2 cs], r.2)
      | none => ([], r.2)
    else
      let r := imgMapForest env st cs
      ([Node.elem i t a r.1], r.2)

/-- Image localisation over a forest, in document order. -/
def imgMapForest (env : FetchEnv) (st : FsState) : List Node → List Node × FsState
  | [] => ([], st)
  | n :: ns =>
    let r1 := imgMapNode env st n
    let r2 := imgMapForest env r1.2 ns
    (r1.1 ++ r2.1, r2.2)

end

/-- Image localisation over the document. -/
def imgLocalizeDoc (env : FetchEnv) (st : FsState) (d : Doc) : Doc × FsState :=
  let rh := imgMapForest env st d.headChildren
  let rb := imgMapForest env rh.2 d.bodyChildren
  (⟨rh.1, rb.1⟩, rb.2)

/-! ## `_relativize_same_scope_links` -/

/-- Static configuration of the converter relevant to post-processing:
the output basename, the meta description, the `HTML_LOCALIZE_CSS` flag
and the precomputed absolute-document-URL parts (`_abs_doc_parsed`,
`_abs_doc_dir`). -/
structure Config where
  outputBasename : String
  metaDescription : String
  localizeCss : Bool
  absScheme : String
  absNetloc : String
  absDir : String

/-- Model of `_is_same_site_same_scope`. -/
def isSameSiteSameScope (cfg : Config) (url : String) : Option String :=
  let p := urlParse url
  if p.scheme = "" || p.netloc = "" then none
  else if !(p.scheme = cfg.absScheme && p.netloc = cfg.absNetloc) then none
  else if !(strBegins cfg.absDir p.path) then none
  else some (String.mk (p.path.toList.drop cfg.absDir.toList.length))

/-- Per-node rewrite of `_relativize_same_scope_links` (anchors, links,
scripts and images). -/
def relativizeNode (cfg : Config) (n : Node) : Node :=
  match n with
  | Node.elem i t attrs cs =>
    if t = "a" then
      match getAttr attrs "href" with
      | none => n
      | some raw =>
        let href := pyStrip raw
        if strBegins "#" href then n
        else
          match isSameSiteSameScope cfg href with
          | none => n
          | some tail =>
            if tail = "" then n
            else
              let pp := urlParse href
              if pyBasename pp.path = cfg.outputBasename then
                if pp.fragment ≠ "" then
                  Node.elem i t (popAttr (setAttr attrs "href" ("#" ++ pp.fragment)) "target") cs
                else
                  Node.elem i t (popAttr (setAttr attrs "href" (pyBasename pp.path)) "target") cs
              else Node.elem i t (setAttr attrs "href" (lstripSlash tail)) cs
    else if t = "link" then
      match getAttr attrs "href" with
      | none => n
      | some raw =>
        match isSameSiteSameScope cfg (pyStrip raw) with
        | some tail =>
          if tail = "" then n
          else Node.elem i t (setAttr attrs "href" (lstripSlash tail)) cs
        | none => n
    else if t = "script" || t = "img" then
      match getAttr attrs "src" with
      | none => n
      | some raw =>
        match isSameSiteSameScope cfg (pyStrip raw) with
        | some tail =>
          if tail = "" then n
          else Node.elem i t (setAttr attrs "src" (lstripSlash tail)) cs
        | none => n
    else n
  | _ => n

mutual

/-- The relativisation pass over a subtree. -/
def relativizeMapNode (cfg : Config) : Node → Node
  | Node.text s => Node.text s
  | Node.elem i t a cs =>
    relativizeNode cfg (Node.elem i t a (relativizeMapForest cfg cs))

/-- The relativisation pass over a forest. -/
def relativizeMapForest (cfg : Config) : List Node → List Node
  | [] => []
  | n :: ns => relativizeMapNode cfg n :: relativizeMapForest cfg ns

end

/-- The relativisation pass over the document. -/
def relativizeDoc (cfg : Config) (d : Doc) : Doc :=
  ⟨relativizeMapForest cfg d.headChildren, relativizeMapForest cfg d.bodyChildren⟩

/-! ## `_post_process_html` -/

/-- Per-figure step of the figure-removal loop: remove the figure when its
first descendant `img` has a logo-like `src` (`fig.find("img")` with
`img.get("src", "")`).  A figure destroyed by the removal of an enclosing
figure has empty contents, so `find` returns `None` and it is skipped. -/
def figureStep (d : Doc) (fi : Nat) : Doc :=
  match d.lookup fi with
  | some (Node.elem _ _ _ cs) =>
    match (findTagsForest ["img"] cs).head? with
    | some img =>
      if looksLikeLogoSrc ((img.attr "src").getD "") then d.removeId fi else d
    | none => d
  | _ => d

/-- Remove the first element with the given tag when present
(`soup.header.decompose()`, `base_tag.decompose()`, `soup.nav.decompose()`). -/
def removeFirstTagged (t : String) (d : Doc) : Doc :=
  match d.firstTagged t with
  | some n => d.removeId ((n.idOf?).getD 0)
  | none => d

/-- Insert the description `meta` tag at the front of the head
(`soup.head.insert(0, meta_tag)`). -/
def insertMetaDesc (metaDescription : String) (fresh : Nat) (d : Doc) : Doc :=
  ⟨Node.elem fresh "meta" [("name", "description"), ("content", metaDescription)] []
     :: d.headChildren, d.bodyChildren⟩

/-- The figure-removal loop of `_post_process_html`, over the materialised
figure list. -/
def removeLogoFigures (d : Doc) : Doc :=
  ((d.findTags ["figure"]).filterMap Node.idOf?).foldl figureStep d

/-- The unconditional opening phase of `_post_process_html`: remove the
first `header`, insert the description `meta` at the front of the head,
remove the first `base`, remove every figure whose first image is
logo-like, and remove the first `nav`.  None of it is gated on any
configuration. -/
def earlyPhase (metaDescription : String) (fresh : Nat) (d : Doc) : Doc × Nat :=
  (removeFirstTagged "nav"
    (removeLogoFigures
      (removeFirstTagged "base"
        (insertMetaDesc metaDescription fresh
          (removeFirstTagged "header" d)))), fresh + 1)

/-- Model of `_post_process_html`: the full post-processing sequence in
source order. -/
def postProcessHtml (cfg : Config) (env : FetchEnv) (st : FsState) (fresh : Nat)
    (d : Doc) : Except String (Doc × FsState × Nat) := do
  let ef := earlyPhase cfg.metaDescription fresh d
  let r1 ← enforceSingleOasisLogo ef.2 ef.1
  let r2 := fixTopBanner r1.2 r1.1
  let d1 := removeDuplicateHeadingAnchors r2.1
  let d2 := normalizeSameDocAnchors cfg.outputBasename d1
  let r3 := linkifyDoc r2.2 d2
  let rc := if cfg.localizeCss then cssLocalizeDoc env st r3.1 else (r3.1, st)
  let ri := imgLocalizeDoc env rc.2 rc.1
  let d3 := relativizeDoc cfg ri.1
  pure (d3, ri.2, r3.2)

/-! ## Observables used in the theorem statements -/

/-- Number of canonical logo images in the document. -/
def countCanonicalLogos (d : Doc) : Nat :=
  ((d.findTags ["img"]).filter (isCanonicalLogoImg d)).length

/-- The `href` attributes of all anchors, in document order. -/
def anchorHrefs (d : Doc) : List String :=
  (d.findTags ["a"]).filterMap (fun (n : Node) => n.attr "href")

/-- All images in the document, in document order. -/
def allImgs (d : Doc) : List Node :=
  d.findTags ["img"]

/-! ## Lemmas about the generic tree operations -/

/-- The head of a list is a member. -/
theorem mem_of_head?_eq {α : Type} {l : List α} {a : α} (h : l.head? = some a) :
    a ∈ l := by
  cases l with
  | nil => simp at h
  | cons x xs =>
    simp only [List.head?_cons, Option.some.injEq] at h
    exact h ▸ List.mem_cons_self x xs

/-- `forestIds` distributes over append. -/
theorem forestIds_append (l1 l2 : List Node) :
    forestIds (l1 ++ l2) = forestIds l1 ++ forestIds l2 := by
  induction l1 with
  | nil => rfl
  | cons n ns ih => simp [forestIds, ih]

mutual

/-- Removing an absent identifier leaves a node unchanged. -/
theorem removeIdNode_of_notMem (i : Nat) (n : Node) (h : i ∉ nodeIds n) :
    removeIdNode i n = [n] := by
  match n with
  | Node.text s => rfl
  | Node.elem j t a cs =>
    simp only [nodeIds, List.mem_cons, not_or] at h
    simp only [removeIdNode, if_neg (Ne.symm h.1),
      removeIdForest_of_notMem i cs h.2]

/-- Removing an absent identifier leaves a forest unchanged. -/
theorem removeIdForest_of_notMem (i : Nat) (l : List Node) (h : i ∉ forestIds l) :
    removeIdForest i l = l := by
  match l with
  | [] => rfl
  | n :: ns =>
    simp only [forestIds, List.mem_append, not_or] at h
    simp only [removeIdForest, removeIdNode_of_notMem i n h.1,
      removeIdForest_of_notMem i ns h.2, List.cons_append, List.nil_append]

end

mutual

/-- The removed identifier does not occur in the result. -/
theorem notMem_removeIdNode (i : Nat) (n : Node) :
    i ∉ forestIds (removeIdNode i n) := by
  match n with
  | Node.text s => simp [removeIdNode, forestIds, nodeIds]
  | Node.elem j t a cs =>
    by_cases hj : j = i
    · simp [removeIdNode, hj, forestIds]
    · have hcs := notMem_removeIdForest i cs
      simp only [removeIdNode, if_neg hj, forestIds, nodeIds, List.append_nil,
        List.mem_cons, not_or]
      exact ⟨Ne.symm hj, hcs⟩

/-- The removed identifier does not occur in the result forest. -/
theorem notMem_removeIdForest (i : Nat) (l : List Node) :
    i ∉ forestIds (removeIdForest i l) := by
  match l with
  | [] => simp [removeIdForest, forestIds]
  | n :: ns =>
    have h1 := notMem_removeIdNode i n
    have h2 := notMem_removeIdForest i ns
    simp only [removeIdForest, forestIds_append, List.mem_append, not_or]
    exact ⟨h1, h2⟩

end

mutual

/-- Identifiers in the result of a removal come from the original node. -/
theorem mem_of_mem_removeIdNode (i j : Nat) (n : Node)
    (h : j ∈ forestIds (removeIdNode i n)) : j ∈ nodeIds n := by
  match n with
  | Node.text s => simp [removeIdNode, forestIds, nodeIds] at h
  | Node.elem k t a cs =>
    by_cases hk : k = i
    · simp [removeIdNode, hk, forestIds] at h
    · simp only [removeIdNode, if_neg hk, forestIds, List.append_nil, nodeIds,
        List.mem_cons] at h ⊢
      rcases h with h | h
      · exact Or.inl h
      · exact Or.inr (mem_of_mem_removeIdForest i j cs h)

/-- Identifiers in the result of a removal come from the original forest. -/
theorem mem_of_mem_removeIdForest (i j : Nat) (l : List Node)
    (h : j ∈ forestIds (removeIdForest i l)) : j ∈ forestIds l := by
  match l with
  | [] => simp [removeIdForest, forestIds] at h
  | n :: ns =>
    simp only [removeIdForest, forestIds_append, List.mem_append] at h
    simp only [forestIds, List.mem_append]
    rcases h with h | h
    · exact Or.inl (mem_of_mem_removeIdNode i j n h)
    · exact Or.inr (mem_of_mem_removeIdForest i j ns h)

end

/-- The removed identifier does not occur in the resulting document. -/
theorem notMem_removeId_ids (d : Doc) (i : Nat) : i ∉ (d.removeId i).ids := by
  simp only [Doc.removeId, Doc.ids, List.mem_append, not_or]
  exact ⟨notMem_removeIdForest i d.headChildren, notMem_removeIdForest i d.bodyChildren⟩

/-- Identifiers of the document after a removal come from the original. -/
theorem mem_of_mem_removeId_ids (d : Doc) (i j : Nat)
    (h : j ∈ (d.removeId i).ids) : j ∈ d.ids := by
  simp only [Doc.removeId, Doc.ids, List.mem_append] at h ⊢
  rcases h with h | h
  · exact Or.inl (mem_of_mem_removeIdForest i j d.headChildren h)
  · exact Or.inr (mem_of_mem_removeIdForest i j d.bodyChildren h)

mutual

/-- Elements returned by `findTagsNode` have their identifier in the node. -/
theorem idOf_mem_of_mem_findTagsNode (ts : List String) (n m : Node)
    (h : m ∈ findTagsNode ts n) : (m.idOf?).getD 0 ∈ nodeIds n := by
  match n with
  | Node.text s => simp [findTagsNode] at h
  | Node.elem j t a cs =>
    simp only [findTagsNode] at h
    rcases List.mem_append.1 h with h | h
    · by_cases hts : ts.contains t
      · simp only [if_pos hts, List.mem_singleton] at h
        subst h
        simp [nodeIds, Node.idOf?]
      · rw [if_neg hts] at h
        simp at h
    · simp only [nodeIds, List.mem_cons]
      exact Or.inr (idOf_mem_of_mem_findTagsForest ts cs m h)

/-- Elements returned by `findTagsForest` have their identifier in the forest. -/
theorem idOf_mem_of_mem_findTagsForest (ts : List String) (l : List Node) (m : Node)
    (h : m ∈ findTagsForest ts l) : (m.idOf?).getD 0 ∈ forestIds l := by
  match l with
  | [] => simp [findTagsForest] at h
  | n :: ns =>
    simp only [findTagsForest] at h
    simp only [forestIds, List.mem_append]
    rcases List.mem_append.1 h with h | h
    · exact Or.inl (idOf_mem_of_mem_findTagsNode ts n m h)
    · exact Or.inr (idOf_mem_of_mem_findTagsForest ts ns m h)

end

/-- Elements found by `Doc.firstTagged` have their identifier in the document. -/
theorem idOf_firstTagged_mem_ids (d : Doc) (t : String) (n : Node)
    (h : d.firstTagged t = some n) : (n.idOf?).getD 0 ∈ d.ids := by
  have hmem : n ∈ d.findTags [t] := mem_of_head?_eq h
  simp only [Doc.findTags, List.mem_append] at hmem
  simp only [Doc.ids, List.mem_append]
  rcases hmem with h1 | h1
  · exact Or.inl (idOf_mem_of_mem_findTagsForest [t] d.headChildren n h1)
  · exact Or.inr (idOf_mem_of_mem_findTagsForest [t] d.bodyChildren n h1)


/-- Decidable equality for `Except`, used to evaluate concrete runs. -/
instance {e a : Type} [DecidableEq e] [DecidableEq a] : DecidableEq (Except e a) := fun x y =>
  match x, y with
  | Except.ok v, Except.ok w =>
    if h : v = w then isTrue (by rw [h])
    else isFalse (by intro hh; cases hh; exact h rfl)
  | Except.error v, Except.error w =>
    if h : v = w then isTrue (by rw [h])
    else isFalse (by intro hh; cases hh; exact h rfl)
  | Except.ok _, Except.error _ => isFalse (by intro hh; cases hh)
  | Except.error _, Except.ok _ => isFalse (by intro hh; cases hh)

/-! ## Claim C1: logo deduplication leaves exactly one canonical logo -/

/-- Failing input for C1: the first body element is a paragraph holding two
canonical logo images side by side. -/
def c1Doc : Doc :=
  ⟨[], [Node.elem 9 "p" []
          [Node.elem 10 "img" [("src", logoCanonicalRemote), ("alt", "OASIS Logo")] [],
           Node.elem 11 "img" [("src", logoCanonicalRemote), ("alt", "OASIS Logo")] []],
        Node.elem 12 "h1" [] [Node.text "T"]]⟩

/-- C1: the claim states that after `_enforce_single_oasis_logo` the document
contains exactly one canonical logo image, and in particular that a document
with more than one logo-like image ends with exactly one.  On `c1Doc` — two
canonical logo images inside the paragraph that is the first element child of
the body — every image passes `_is_canonical_logo_img`, so the cleanup loops
keep both and the promotion step is skipped: the pass succeeds, returns the
document unchanged, and the output contains two canonical logo images. -/
theorem c1_enforce_keeps_two_canonical_logos :
    countCanonicalLogos c1Doc = 2 ∧
    enforceSingleOasisLogo 100 c1Doc = Except.ok (c1Doc, 100) ∧
    (enforceSingleOasisLogo 100 c1Doc).map (fun r => countCanonicalLogos r.1)
      = Except.ok 2 :=
  ⟨rfl, rfl, rfl⟩

/-! ## Claim C3: idempotence of the full post-processing sequence -/

/-- Configuration for the C3 run: output basename `doc.html`, CSS
localisation off, absolute document URL falling back to the bare base URL
(path empty, so `_abs_doc_dir` is the root). -/
def c3Cfg : Config := ⟨"doc.html", "-", false, "https", "docs.oasis-open.org", "/"⟩

/-- Fetch oracle for the C3 run: every fetch succeeds. -/
def c3Env : FetchEnv := ⟨fun _ => true⟩

/-- Initial filesystem state for the C3 run: empty directories, empty log. -/
def c3St : FsState := ⟨[], [], []⟩

/-- Failing input for C3: one paragraph of plain text containing a bare URL
whose path basename equals the output document's basename. -/
def c3Doc : Doc :=
  ⟨[], [Node.elem 1 "p" [] [Node.text "see https://example.com/doc.html#x ok"]]⟩

/-- C3: the claim states that a second run of the full post-processing
sequence on its own output changes no anchor href.  On `c3Doc` the first run
wraps the bare URL in an anchor only in `_convert_plain_urls_to_links`,
which runs after `_normalize_same_doc_anchors_for_web`, so the href stays
the absolute external URL.  The second run's anchor normalisation then sees
an anchor carrying a fragment whose path basename equals the output basename
and rewrites the href to `"#x"`: the second run changes an anchor href. -/
theorem c3_second_run_rewrites_anchor :
    (postProcessHtml c3Cfg c3Env c3St 100 c3Doc).map (fun r => anchorHrefs r.1)
      = Except.ok ["https://example.com/doc.html#x"] ∧
    (match postProcessHtml c3Cfg c3Env c3St 100 c3Doc with
     | Except.ok (d1, st1, f1) =>
       (postProcessHtml c3Cfg c3Env st1 f1 d1).map (fun r => anchorHrefs r.1)
     | Except.error e => Except.error e)
      = Except.ok ["#x"] := by
  constructor
  · decide
  · decide




/-! ## Claim C2: same-document anchors are rewritten to bare fragments -/

/-- Counterexample input for C2: an anchor whose href is `" #x"`, a bare
fragment link padded with a leading space. -/
def c2Doc : Doc :=
  ⟨[], [Node.elem 2 "p" []
         [Node.elem 3 "a" [("href", " #x"), ("target", "_blank")] [Node.text "t"]]]⟩

/-- C2 counterexample: the anchor of `c2Doc` is in the claim's same-document
scope — its stripped href parses with fragment `"x"`, no scheme, no host and
an empty path — so the claim demands that the pass rewrite the href to the
bare form `"#x"` and strip `target`.  The pass strips `target` but leaves the
href attribute `" #x"` verbatim, which is not the bare form: the branch for
hrefs that already start with `"#"` after stripping never rewrites the
attribute value. -/
theorem c2_counterexample :
    (urlParse (pyStrip " #x")).fragment = "x" ∧
    (urlParse (pyStrip " #x")).scheme = "" ∧
    (urlParse (pyStrip " #x")).netloc = "" ∧
    (urlParse (pyStrip " #x")).path = "" ∧
    normalizeSameDocAnchors "doc.html" c2Doc
      = ⟨[], [Node.elem 2 "p" []
               [Node.elem 3 "a" [("href", " #x")] [Node.text "t"]]]⟩ ∧
    (" #x" : String) ≠ "#x" := by
  refine ⟨by decide, by decide, by decide, by decide, rfl, by decide⟩

/-- C2 amended: for every anchor carrying an href whose stripped value
parses with a non-empty fragment and falls in the same-document scope —
(a) no scheme and no netloc, with an empty or basename-matching path, or
(b) a scheme and a netloc with a basename-matching path — the pass removes
the `target` attribute, and rewrites the href attribute to the bare
`"#<fragment>"` form unless the stripped href already begins with `"#"`, in
which case the href attribute is kept verbatim (the change the
counterexample forces). -/
theorem c2_amended (outBase : String) (i : Nat) (attrs : List (String × String))
    (cs : List Node) (hrefRaw : String)
    (hhref : getAttr attrs "href" = some hrefRaw)
    (hfrag : (urlParse (pyStrip hrefRaw)).fragment ≠ "")
    (hscope :
      ((urlParse (pyStrip hrefRaw)).scheme = "" ∧
        (urlParse (pyStrip hrefRaw)).netloc = "" ∧
        ((urlParse (pyStrip hrefRaw)).path = "" ∨
          pyBasename (urlParse (pyStrip hrefRaw)).path = outBase)) ∨
      (¬ (urlParse (pyStrip hrefRaw)).scheme = "" ∧
        ¬ (urlParse (pyStrip hrefRaw)).netloc = "" ∧
        pyBasename (urlParse (pyStrip hrefRaw)).path = outBase)) :
    normalizeAnchorNode outBase (Node.elem i "a" attrs cs)
      = Node.elem i "a"
          (if strBegins "#" (pyStrip hrefRaw) = true then popAttr attrs "target"
           else popAttr (setAttr attrs "href"
                  ("#" ++ (urlParse (pyStrip hrefRaw)).fragment)) "target") cs := by
  have hne : ¬ (pyStrip hrefRaw = "") := by
    intro h0
    exact hfrag (by rw [h0]; rfl)
  by_cases hh : strBegins "#" (pyStrip hrefRaw) = true
  · simp only [normalizeAnchorNode, hhref, if_neg hne, if_pos hh, if_true]
  · have hsame :
        (if ((urlParse (pyStrip hrefRaw)).scheme = "" &&
              (urlParse (pyStrip hrefRaw)).netloc = "" : Bool) = true then
          ((urlParse (pyStrip hrefRaw)).path = "" ||
             pyBasename (urlParse (pyStrip hrefRaw)).path = outBase : Bool)
        else (decide (pyBasename (urlParse (pyStrip hrefRaw)).path = outBase))) = true := by
      rcases hscope with ⟨h1, h2, h3⟩ | ⟨h1, h2, h3⟩
      · have hc : (decide ((urlParse (pyStrip hrefRaw)).scheme = "") &&
            decide ((urlParse (pyStrip hrefRaw)).netloc = "")) = true := by
          simp [h1, h2]
        rw [if_pos hc]
        rcases h3 with h3 | h3 <;> simp [h3]
      · have hc : ¬ ((decide ((urlParse (pyStrip hrefRaw)).scheme = "") &&
            decide ((urlParse (pyStrip hrefRaw)).netloc = "")) = true) := by
          simp [h1]
        rw [if_neg hc]
        simp [h3]
    simp only [normalizeAnchorNode, hhref, if_neg hne, if_neg hh, if_neg hfrag,
      if_pos hsame, if_true]

/-- Witness for the amended C2 theorem: a relative same-document href with a
fragment is rewritten to the bare form with `target` dropped. -/
theorem c2_amended_witness :
    normalizeAnchorNode "doc.html"
        (Node.elem 1 "a" [("href", "doc.html#s"), ("target", "_b")] [])
      = Node.elem 1 "a" [("href", "#s")] [] := by
  have h := c2_amended "doc.html" 1 [("href", "doc.html#s"), ("target", "_b")] []
    "doc.html#s" (by decide) (by decide) (by decide)
  rw [h, if_neg (by decide)]
  congr 1

/-! ## Claim C7: fragment-free hrefs are left untouched -/

/-- C7: an anchor whose stripped href does not begin with `"#"` and whose
parse carries no fragment identifier is left completely unchanged by
`_normalize_same_doc_anchors_for_web`: the href and all other attributes
stay exactly as they were (fragment-free hrefs are out of this pass's
scope; they are handled by the relativisation pass instead). -/
theorem c7_no_fragment_left_untouched (outBase : String) (i : Nat)
    (attrs : List (String × String)) (cs : List Node) (hrefRaw : String)
    (hhref : getAttr attrs "href" = some hrefRaw)
    (hnohash : strBegins "#" (pyStrip hrefRaw) = false)
    (hnofrag : (urlParse (pyStrip hrefRaw)).fragment = "") :
    normalizeAnchorNode outBase (Node.elem i "a" attrs cs)
      = Node.elem i "a" attrs cs := by
  have hh : ¬ strBegins "#" (pyStrip hrefRaw) = true := by simp [hnohash]
  by_cases hne : pyStrip hrefRaw = ""
  · simp only [normalizeAnchorNode, hhref, if_pos hne, if_true]
  · simp only [normalizeAnchorNode, hhref, if_neg hne, if_neg hh, if_pos hnofrag,
      if_true]

/-- Witness for C7: an external fragment-free href is untouched, keeping its
`target` attribute as well. -/
theorem c7_witness :
    normalizeAnchorNode "doc.html"
        (Node.elem 4 "a" [("href", "https://example.com/other.html"), ("target", "_b")]
          [Node.text "t"])
      = Node.elem 4 "a" [("href", "https://example.com/other.html"), ("target", "_b")]
          [Node.text "t"] :=
  c7_no_fragment_left_untouched "doc.html" 4
    [("href", "https://example.com/other.html"), ("target", "_b")] [Node.text "t"]
    "https://example.com/other.html" (by decide) (by decide) (by decide)


/-! ## Claim C6: duplicate heading anchors -/

/-- Counterexample input for C6: a heading with id `x` containing an anchor
with the same id whose contents are mixed (text plus an element). -/
def c6Doc : Doc :=
  ⟨[], [Node.elem 1 "h2" [("id", "x")]
         [Node.elem 2 "a" [("id", "x")]
           [Node.text "foo", Node.elem 3 "b" [] [Node.text "bar"]]]]⟩

/-- C6 counterexample: the claim says the text content of every removed
nested anchor is preserved inline.  The anchor of `c6Doc` has text content
`"foobar"`, but because it holds more than one child its `Tag.string` is
`None`, so the pass calls `decompose()` and the text is lost: after the pass
the heading is empty.  (The first half of the claim does hold here: no
anchor with id `x` remains.) -/
theorem c6_counterexample :
    nodeText (Node.elem 2 "a" [("id", "x")]
        [Node.text "foo", Node.elem 3 "b" [] [Node.text "bar"]]) = "foobar" ∧
    removeDuplicateHeadingAnchors c6Doc = ⟨[], [Node.elem 1 "h2" [("id", "x")] []]⟩ ∧
    forestText (removeDuplicateHeadingAnchors c6Doc).bodyChildren = "" := by
  refine ⟨by decide, rfl, by decide⟩

mutual

/-- Checker for the amended C6 claim, node form: relative to the ids `anc`
of enclosing headings, no anchor element in the subtree carries an id that
belongs to an enclosing heading. -/
def anchorIdOkNode (anc : List String) : Node → Bool
  | Node.text _ => true
  | Node.elem _ t a cs =>
    (if t = "a" then ((getAttr a "id").elim true (fun v => !(anc.contains v))) else true) &&
    anchorIdOkForest
      (if headingTagNames.contains t then
        match getAttr a "id" with
        | some v => if v = "" then anc else v :: anc
        | none => anc
      else anc) cs

/-- Checker for the amended C6 claim, forest form. -/
def anchorIdOkForest (anc : List String) : List Node → Bool
  | [] => true
  | n :: ns => anchorIdOkNode anc n && anchorIdOkForest anc ns

end

/-- The checker holds on an append when it holds on both parts. -/
theorem anchorIdOkForest_append (anc : List String) (l1 l2 : List Node)
    (h1 : anchorIdOkForest anc l1 = true) (h2 : anchorIdOkForest anc l2 = true) :
    anchorIdOkForest anc (l1 ++ l2) = true := by
  induction l1 with
  | nil => simpa using h2
  | cons n ns ih =>
    simp only [anchorIdOkForest, Bool.and_eq_true] at h1
    simp only [List.cons_append, anchorIdOkForest, Bool.and_eq_true]
    exact ⟨h1.1, ih h1.2⟩

mutual

/-- The duplicate-anchor pass establishes the checker on every node. -/
theorem dedupNode_ok (anc : List String) (n : Node) :
    anchorIdOkForest anc (dedupNode anc n) = true := by
  match n with
  | Node.text s => rfl
  | Node.elem i t a cs =>
    by_cases hm : (t = "a" && ((getAttr a "id").elim false (anc.contains ·))) = true
    · simp only [dedupNode, if_pos hm]
      cases hstring : nodeString (Node.elem i t a cs) with
      | none => rfl
      | some s =>
        show anchorIdOkForest anc (if s = "" then [] else [Node.text s]) = true
        by_cases hs : s = ""
        · rw [if_pos hs]
          rfl
        · rw [if_neg hs]
          rfl
    · simp only [dedupNode, if_neg hm]
      have hrec := dedupForest_ok
        (if headingTagNames.contains t then
          match getAttr a "id" with
          | some v => if v = "" then anc else v :: anc
          | none => anc
        else anc) cs
      simp only [anchorIdOkForest, anchorIdOkNode, Bool.and_eq_true]
      refine ⟨⟨?_, hrec⟩, trivial⟩
      by_cases ht : t = "a"
      · rw [if_pos ht]
        cases hid : getAttr a "id" with
        | none => rfl
        | some v =>
          show (!(anc.contains v)) = true
          have hcv : anc.contains v = false := by
            by_cases hv : anc.contains v = true
            · refine absurd ?_ hm
              rw [ht, hid]
              show (decide (("a" : String) = "a") && anc.contains v) = true
              rw [hv]
              rfl
            · simpa using hv
          rw [hcv]
          rfl
      · rw [if_neg ht]

/-- The duplicate-anchor pass establishes the checker on every forest. -/
theorem dedupForest_ok (anc : List String) (l : List Node) :
    anchorIdOkForest anc (dedupForest anc l) = true := by
  match l with
  | [] => rfl
  | n :: ns =>
    have h1 := dedupNode_ok anc n
    have h2 := dedupForest_ok anc ns
    simp only [dedupForest]
    exact anchorIdOkForest_append anc (dedupNode anc n) (dedupForest anc ns) h1 h2

end

/-- C6 amended: after `_remove_duplicate_heading_anchors` (i) no anchor
element anywhere in the document carries the id of one of its enclosing
headings — in particular a heading with id `x` contains no nested anchor
with id `x` — and (ii) an anchor in scope is replaced by exactly its
`Tag.string` when that string is non-empty, and is removed together with
its whole contents when its string is `None` or empty; text is therefore
preserved only for anchors whose contents form a single-child chain ending
in one string, which is the weakening the counterexample forces. -/
theorem c6_amended (d : Doc) :
    (anchorIdOkForest [] (removeDuplicateHeadingAnchors d).headChildren = true ∧
     anchorIdOkForest [] (removeDuplicateHeadingAnchors d).bodyChildren = true) ∧
    (∀ (anc : List String) (i : Nat) (a : List (String × String)) (cs : List Node),
      ((getAttr a "id").elim false (anc.contains ·)) = true →
      dedupNode anc (Node.elem i "a" a cs)
        = (match nodeString (Node.elem i "a" a cs) with
           | some s => if s = "" then [] else [Node.text s]
           | none => [])) := by
  constructor
  · exact ⟨dedupForest_ok [] d.headChildren, dedupForest_ok [] d.bodyChildren⟩
  · intro anc i a cs hid
    have hc : (decide (("a" : String) = "a") &&
        ((getAttr a "id").elim false (fun x => anc.contains x))) = true := by
      rw [show decide (("a" : String) = "a") = true from rfl, Bool.true_and]
      exact hid
    unfold dedupNode
    rw [if_pos hc]

/-- Witness for the amended C6 theorem on the counterexample document and a
single-string anchor. -/
theorem c6_amended_witness :
    anchorIdOkForest [] (removeDuplicateHeadingAnchors c6Doc).bodyChildren = true ∧
    dedupNode ["x"] (Node.elem 2 "a" [("id", "x")] [Node.text "foo"])
      = [Node.text "foo"] := by
  refine ⟨(c6_amended c6Doc).1.2, ?_⟩
  have h := (c6_amended c6Doc).2 ["x"] 2 [("id", "x")] [Node.text "foo"] (by decide)
  rw [h]
  rfl


/-! ## Claim C5: which node the logo cleanup removes -/

/-- A forest in which identifier `i` occurs only as a direct child loses
exactly that child under removal. -/
theorem removeIdForest_filter (i : Nat) (l : List Node)
    (hloc : ∀ c ∈ l, hasId i c = true ∨ i ∉ nodeIds c) :
    removeIdForest i l = l.filter (fun c => !(hasId i c)) := by
  induction l with
  | nil => rfl
  | cons c cl ih =>
    have h1 := hloc c (List.mem_cons_self c cl)
    have ih2 := ih (fun x hx => hloc x (List.mem_cons_of_mem c hx))
    rcases h1 with h1 | h1
    · cases c with
      | text s => simp [hasId] at h1
      | elem j t a cs2 =>
        have hj : j = i := by simpa [hasId] using h1
        subst hj
        simp only [removeIdForest, removeIdNode, if_pos rfl, List.nil_append, ih2]
        simp [List.filter, hasId]
    · have hfalse : hasId i c = false := by
        cases c with
        | text s => rfl
        | elem j t a cs2 =>
          simp only [nodeIds, List.mem_cons, not_or] at h1
          simp [hasId, Ne.symm h1.1]
      simp only [removeIdForest, removeIdNode_of_notMem i c h1, List.cons_append,
        List.nil_append, ih2]
      simp [List.filter, hfalse]

/-- Counterexample input for C5: a (non-first) paragraph holding a plain
image and a logo-like non-canonical candidate image. -/
def c5Doc : Doc :=
  ⟨[], [Node.elem 1 "h1" [] [Node.text "T"],
        Node.elem 2 "p" [] [Node.elem 3 "img" [("src", "x.png")] [],
                            Node.elem 4 "img" [("src", "y/OASISLogo-v3.0.png")] []]]⟩

/-- C5 counterexample: image 4 of `c5Doc` is a logo-like non-canonical
candidate; its enclosing paragraph also holds image 3 (`x.png`), so it does
not contain "only that one image plus whitespace", and the claim demands
that only image 4 be removed with image 3 kept in the tree.  The code's
paragraph test accepts any children that are images or whitespace, so the
cleanup step removes the whole paragraph: after the step (and after the full
pass) image 3 is gone. -/
theorem c5_counterexample :
    c5Doc.ids = [1, 2, 3, 4] ∧
    (logoCleanupStep c5Doc 4).map Doc.ids = Except.ok [1] ∧
    (enforceSingleOasisLogo 100 c5Doc).map (fun r => r.1.ids)
      = Except.ok [101, 100, 1] := by
  refine ⟨by decide, by decide, by decide⟩

/-- C5 amended: when the cleanup loop of `_enforce_single_oasis_logo`
processes a matched, non-canonical candidate image whose parent is known,
the enclosing paragraph is removed as a whole if and only if the parent is a
`p` all of whose children are image elements or whitespace (not necessarily
only the candidate itself — the weakening the counterexample forces); in
every other case exactly the candidate image is removed: its identifier is
gone and the paragraph keeps all its other children. -/
theorem c5_amended (d : Doc) (i pj : Nat) (t pt : String)
    (a pa : List (String × String)) (pcs : List Node)
    (hlook : d.lookup i = some (Node.elem i t a []))
    (hmatch : (containsSub ((getAttr a "src").getD "") "OASISLogo"
        || decide (pyStrip ((getAttr a "alt").getD "") = "OASIS Logo")) = true)
    (hnc : isCanonicalLogoImg d (Node.elem i t a []) = false)
    (hpar : d.parentOf i = some (ParentLoc.under (Node.elem pj pt pa pcs)))
    (hloc : ∀ c ∈ pcs, hasId i c = true ∨ i ∉ nodeIds c) :
    ((pt = "p" && allImgOrWs pcs) = true →
        logoCleanupStep d i = Except.ok (d.removeId pj) ∧
        pj ∉ (d.removeId pj).ids) ∧
    (¬ ((pt = "p" && allImgOrWs pcs) = true) →
        logoCleanupStep d i = Except.ok (d.removeId i) ∧
        i ∉ (d.removeId i).ids ∧
        removeIdForest i pcs = pcs.filter (fun c => !(hasId i c))) := by
  have hstep : logoCleanupStep d i
      = (if (pt = "p" && allImgOrWs pcs) = true
         then Except.ok (d.removeId pj) else Except.ok (d.removeId i)) := by
    unfold logoCleanupStep
    rw [hlook]
    simp only [Node.attr]
    rw [if_pos hmatch, if_neg (by simp [hnc]), hpar]
    rfl
  constructor
  · intro hcase
    rw [if_pos hcase] at hstep
    exact ⟨hstep, notMem_removeId_ids d pj⟩
  · intro hcase
    rw [if_neg hcase] at hstep
    exact ⟨hstep, notMem_removeId_ids d i, removeIdForest_filter i pcs hloc⟩

/-- Witness for the amended C5 theorem: a candidate image in a paragraph
with a text sibling — only the image is removed, the sibling stays. -/
theorem c5_amended_witness :
    logoCleanupStep
        (⟨[], [Node.elem 1 "h1" [] [Node.text "T"],
               Node.elem 2 "p" []
                 [Node.elem 3 "img" [("src", "y/OASISLogo-v3.0.png")] [],
                  Node.text "hello"]]⟩ : Doc) 3
      = Except.ok ((⟨[], [Node.elem 1 "h1" [] [Node.text "T"],
               Node.elem 2 "p" []
                 [Node.elem 3 "img" [("src", "y/OASISLogo-v3.0.png")] [],
                  Node.text "hello"]]⟩ : Doc).removeId 3) ∧
    removeIdForest 3 [Node.elem 3 "img" [("src", "y/OASISLogo-v3.0.png")] [],
        Node.text "hello"]
      = [Node.text "hello"] := by
  have h := (c5_amended
    (⟨[], [Node.elem 1 "h1" [] [Node.text "T"],
           Node.elem 2 "p" []
             [Node.elem 3 "img" [("src", "y/OASISLogo-v3.0.png")] [],
              Node.text "hello"]]⟩ : Doc) 3 2 "img" "p"
    [("src", "y/OASISLogo-v3.0.png")] []
    [Node.elem 3 "img" [("src", "y/OASISLogo-v3.0.png")] [], Node.text "hello"]
    rfl (by decide) (by decide) rfl (by decide)).2 (by decide)
  refine ⟨h.1, ?_⟩
  rw [h.2.2]
  rfl


/-! ## Claim C4: the banner pass and the inserted page-break rule -/

/-- Renaming one element's tag preserves every identifier test. -/
theorem hasId_renameNodeIf (i j : Nat) (t2 : String) (n : Node) :
    hasId i (renameNodeIf j t2 n) = hasId i n := by
  cases n with
  | text s => rfl
  | elem k t a cs =>
    by_cases hk : k = j
    · simp [renameNodeIf, hk, hasId]
    · simp [renameNodeIf, hk, hasId]

/-- Taking the suffix after an identifier commutes with renaming. -/
theorem listAfterId_renameIdTop (i j : Nat) (t2 : String) (l : List Node) :
    listAfterId i (renameIdTop j t2 l) = renameIdTop j t2 (listAfterId i l) := by
  induction l with
  | nil => rfl
  | cons n ns ih =>
    by_cases hn : hasId i n = true
    · simp [renameIdTop, listAfterId, hasId_renameNodeIf, hn]
    · simp [renameIdTop, listAfterId, hasId_renameNodeIf, hn, ih]

/-- Inserting after an identifier that occurs in the list places the new
node at the head of the suffix after that identifier. -/
theorem listAfterId_insertAfterIdTop (i : Nat) (x : Node) (l : List Node)
    (h : l.any (hasId i) = true) :
    listAfterId i (insertAfterIdTop i x l) = x :: listAfterId i l := by
  induction l with
  | nil => simp at h
  | cons n ns ih =>
    by_cases hn : hasId i n = true
    · simp [insertAfterIdTop, listAfterId, hn]
    · have h2 : ns.any (hasId i) = true := by
        simp only [List.any_cons, Bool.or_eq_true] at h
        rcases h with h | h
        · exact absurd h hn
        · exact h
      simp [insertAfterIdTop, listAfterId, hn, ih h2]

/-- Counterexample input for C4: the canonical logo paragraph immediately
followed by the first heading. -/
def c4Doc : Doc :=
  ⟨[], [Node.elem 1 "p" []
          [Node.elem 2 "img" [("src", logoCanonicalRemote), ("alt", "OASIS Logo")] []],
        Node.elem 3 "h1" [] [Node.text "Title"]]⟩

/-- C4 counterexample: in `c4Doc` the element immediately following the logo
paragraph (after stray-hr removal, which removes nothing here) is the first
heading, not a horizontal rule with the page-break marker, so the claim
demands that a marked `hr` be inserted after the logo paragraph.  The code's
unmentioned `next_elem != first_heading` guard fires instead: the pass
inserts nothing — the output holds only the logo paragraph and the renamed
heading, and no node was created (the fresh counter is returned unchanged). -/
theorem c4_counterexample :
    (((listAfterId 1 (removeHrsBetween 1 3 c4Doc.bodyChildren)).find? Node.isElemB).map
        isMarkedHr).getD false = false ∧
    (fixTopBanner 100 c4Doc).1.bodyChildren.filterMap Node.tagOf? = ["p", "h1big"] ∧
    (fixTopBanner 100 c4Doc).2 = 100 := by
  refine ⟨by decide, by decide, by decide⟩

/-- C4 amended: in `_fix_top_banner_block`, after stray horizontal rules
between the logo paragraph and the first following heading are removed,
whenever the element immediately following the logo paragraph is not
already a marked horizontal rule AND is not the first heading itself (the
guard the counterexample forces), a new horizontal rule carrying the
`page-break-before: avoid` marker is inserted immediately after the logo
paragraph: in the output, the first element sibling after the logo
paragraph is exactly that new rule. -/
theorem c4_amended (d : Doc) (fresh : Nat) (lp fh : Node) (lpId fhId : Nat)
    (hlp : findLogoP d = some lp) (hlpid : lp.idOf? = some lpId)
    (hfh : (listAfterId lpId d.bodyChildren).find?
        (fun (n : Node) => (n.tagOf?).elim false (headingTagNames.contains ·)) = some fh)
    (hfhid : fh.idOf? = some fhId)
    (hmem : (removeHrsBetween lpId fhId d.bodyChildren).any (hasId lpId) = true)
    (halready :
      (((listAfterId lpId (removeHrsBetween lpId fhId d.bodyChildren)).find?
          Node.isElemB).map isMarkedHr).getD false = false)
    (hnotfh :
      (((listAfterId lpId (removeHrsBetween lpId fhId d.bodyChildren)).find?
          Node.isElemB).map (hasId fhId)).getD false = false)
    (hfr : ¬ fresh = fhId) :
    (listAfterId lpId (fixTopBanner fresh d).1.bodyChildren).find? Node.isElemB
      = some (Node.elem fresh "hr" [("style", "page-break-before: avoid")] []) := by
  have hgd1 : (lp.idOf?).getD 0 = lpId := by rw [hlpid]; rfl
  have hgd2 : (fh.idOf?).getD 0 = fhId := by rw [hfhid]; rfl
  simp only [fixTopBanner, hlp, hfh, hgd1, hgd2, halready, hnotfh, Bool.not_false,
    Bool.and_self, if_true]
  have hins := listAfterId_insertAfterIdTop lpId
    (Node.elem fresh "hr" [("style", "page-break-before: avoid")] [])
    (removeHrsBetween lpId fhId d.bodyChildren) hmem
  by_cases hh1 : fh.tagOf? = some "h1"
  · rw [if_pos hh1, listAfterId_renameIdTop, hins]
    simp [renameIdTop, renameNodeIf, hfr, List.find?, Node.isElemB]
  · rw [if_neg hh1, hins]
    simp [List.find?, Node.isElemB]

/-- Input document for the C4 witness: logo paragraph, a stray rule, an
intervening paragraph, then the heading. -/
def c4WitDoc : Doc :=
  ⟨[], [Node.elem 1 "p" []
          [Node.elem 2 "img" [("src", logoCanonicalRemote), ("alt", "OASIS Logo")] []],
        Node.elem 5 "hr" [] [],
        Node.elem 6 "p" [] [Node.text "j"],
        Node.elem 3 "h2" [] [Node.text "Title"]]⟩

/-- Witness for the amended C4 theorem on `c4WitDoc`. -/
theorem c4_amended_witness :
    (listAfterId 1 (fixTopBanner 100 c4WitDoc).1.bodyChildren).find? Node.isElemB
      = some (Node.elem 100 "hr" [("style", "page-break-before: avoid")] []) :=
  c4_amended c4WitDoc 100
    (Node.elem 1 "p" []
      [Node.elem 2 "img" [("src", logoCanonicalRemote), ("alt", "OASIS Logo")] []])
    (Node.elem 3 "h2" [] [Node.text "Title"]) 1 3
    rfl rfl rfl rfl (by decide) (by decide) (by decide) (by decide)


/-! ## Claim C8: image localisation, failure and cache behaviour -/

/-- C8: for an image whose stripped `src` has an `http` or `https` scheme:
(a) when the file is not yet present locally and the fetch fails, the image
element is dropped from the tree, the failure is logged, and the traversal
continues over the remaining nodes with the updated state — the pass never
aborts; (b) when a file with the image's basename already exists locally,
the result is the same for every fetch oracle (no fetch is issued) and the
`src` is rewritten to the local relative path, with any `srcset` removed. -/
theorem c8_img_localization (env : FetchEnv) (st : FsState) (i : Nat)
    (attrs : List (String × String)) (cs rest : List Node) (srcRaw : String)
    (hsrc : getAttr attrs "src" = some srcRaw)
    (hscheme : (urlParse (pyStrip srcRaw)).scheme = "http" ∨
               (urlParse (pyStrip srcRaw)).scheme = "https") :
    (st.imageFiles.contains (imgFileName (pyStrip srcRaw)) = false →
      env.fetchOk (pyStrip srcRaw) = false →
      imgMapForest env st (Node.elem i "img" attrs cs :: rest)
        = imgMapForest env
            { st with log := st.log ++ ["Failed to download image " ++ pyStrip srcRaw] }
            rest) ∧
    (st.imageFiles.contains (imgFileName (pyStrip srcRaw)) = true →
      ∀ env2 : FetchEnv,
        imgMapNode env2 st (Node.elem i "img" attrs cs)
          = ([Node.elem i "img"
                (popAttr (setAttr attrs "src" ("images/" ++ imgFileName (pyStrip srcRaw)))
                  "srcset") cs], st)) := by
  have hs : ((urlParse (pyStrip srcRaw)).scheme = "http"
      || decide ((urlParse (pyStrip srcRaw)).scheme = "https")) = true := by
    rcases hscheme with h | h <;> simp [h]
  constructor
  · intro hnofile hfail
    have hstep : localizeImgAttrs env st attrs
        = (none, { st with log := st.log ++ ["Failed to download image " ++ pyStrip srcRaw] }) := by
      simp only [localizeImgAttrs, hsrc]
      rw [if_pos hs, if_neg (by intro hc; rw [hnofile] at hc; simp at hc),
        if_neg (by intro hc; rw [hfail] at hc; simp at hc)]
    simp only [imgMapForest, imgMapNode, if_pos rfl, hstep, if_true,
      List.nil_append, Prod.mk.eta]
  · intro hfile env2
    have hstep : localizeImgAttrs env2 st attrs
        = (some (popAttr (setAttr attrs "src" ("images/" ++ imgFileName (pyStrip srcRaw)))
            "srcset"), st) := by
      simp only [localizeImgAttrs, hsrc]
      rw [if_pos hs, if_pos hfile]
    simp only [imgMapNode, if_pos rfl, hstep, if_true]

/-- Witness for C8 at concrete inputs: a failing fetch drops the image and
logs; a cached basename rewrites without consulting the oracle. -/
theorem c8_witness :
    imgMapForest (⟨fun _ => false⟩ : FetchEnv) (⟨[], [], []⟩ : FsState)
        [Node.elem 1 "img" [("src", "http://h/a.png")] [],
         Node.elem 2 "img" [("src", "local.png")] []]
      = imgMapForest (⟨fun _ => false⟩ : FetchEnv)
          (⟨[], [], ["Failed to download image http://h/a.png"]⟩ : FsState)
          [Node.elem 2 "img" [("src", "local.png")] []] ∧
    imgMapNode (⟨fun _ => true⟩ : FetchEnv) (⟨["a.png"], [], []⟩ : FsState)
        (Node.elem 1 "img" [("src", "http://h/a.png"), ("srcset", "x")] [])
      = ([Node.elem 1 "img" [("src", "images/a.png")] []], ⟨["a.png"], [], []⟩) := by
  constructor
  · exact (c8_img_localization (⟨fun _ => false⟩ : FetchEnv) (⟨[], [], []⟩ : FsState)
      1 [("src", "http://h/a.png")] [] [Node.elem 2 "img" [("src", "local.png")] []]
      "http://h/a.png" (by decide) (by decide)).1 (by decide) (by decide)
  · have h := (c8_img_localization (⟨fun _ => true⟩ : FetchEnv)
      (⟨["a.png"], [], []⟩ : FsState) 1 [("src", "http://h/a.png"), ("srcset", "x")] [] []
      "http://h/a.png" (by decide) (by decide)).2 (by decide) (⟨fun _ => true⟩ : FetchEnv)
    rw [h]
    rfl

/-! ## Claim C9: CSS localisation keeps the link on fetch failure -/

/-- C9: under the CSS-localisation flag, for a stylesheet link whose
stripped href has an `http` or `https` scheme and whose stylesheet is not
yet stored locally, a failed download leaves the link element in the tree
with its href unchanged at the original remote URL — only the failure is
logged.  (Images behave differently: a failed image fetch drops the
element, see the C8 theorem.) -/
theorem c9_css_fetch_failure_keeps_link (env : FetchEnv) (st : FsState) (i : Nat)
    (attrs : List (String × String)) (cs : List Node) (relV hrefRaw : String)
    (hrel : getAttr attrs "rel" = some relV)
    (hhref : getAttr attrs "href" = some hrefRaw)
    (hstyle : lowerStr ((pySplitWs relV).headD "") = "stylesheet")
    (hscheme : (urlParse (pyStrip hrefRaw)).scheme = "http" ∨
               (urlParse (pyStrip hrefRaw)).scheme = "https")
    (hnofile : st.styleFiles.contains (cssFileName (pyStrip hrefRaw)) = false)
    (hfail : env.fetchOk (pyStrip hrefRaw) = false) :
    localizeCssLink env st (Node.elem i "link" attrs cs)
      = (Node.elem i "link" attrs cs,
         { st with log := st.log ++ ["Failed to download CSS: " ++ pyStrip hrefRaw] }) := by
  have hs : ((urlParse (pyStrip hrefRaw)).scheme = "http"
      || decide ((urlParse (pyStrip hrefRaw)).scheme = "https")) = true := by
    rcases hscheme with h | h <;> simp [h]
  simp only [localizeCssLink, hrel, hhref, if_true]
  rw [if_neg (not_not_intro hstyle), if_pos hs,
    if_neg (by intro hc; rw [hnofile] at hc; simp at hc),
    if_neg (by intro hc; rw [hfail] at hc; simp at hc)]

/-- Witness for C9 at a concrete link and failing oracle. -/
theorem c9_witness :
    localizeCssLink (⟨fun _ => false⟩ : FetchEnv) (⟨[], [], []⟩ : FsState)
        (Node.elem 1 "link" [("rel", "stylesheet"), ("href", "https://h/s.css")] [])
      = (Node.elem 1 "link" [("rel", "stylesheet"), ("href", "https://h/s.css")] [],
         ⟨[], [], ["Failed to download CSS: https://h/s.css"]⟩) :=
  c9_css_fetch_failure_keeps_link (⟨fun _ => false⟩ : FetchEnv) (⟨[], [], []⟩ : FsState)
    1 [("rel", "stylesheet"), ("href", "https://h/s.css")] [] "stylesheet"
    "https://h/s.css" (by decide) (by decide) (by decide) (by decide) (by decide)
    (by decide)


/-! ## Claim C10: the unconditional removals of `_post_process_html` -/

/-- Removing the first tagged element only ever removes identifiers. -/
theorem removeFirstTagged_ids_sub (t : String) (d : Doc) (j : Nat)
    (h : j ∈ (removeFirstTagged t d).ids) : j ∈ d.ids := by
  unfold removeFirstTagged at h
  cases hft : d.firstTagged t with
  | none => simp only [hft] at h; exact h
  | some n => simp only [hft] at h; exact mem_of_mem_removeId_ids d _ j h

/-- The element removed by `removeFirstTagged` does not survive it. -/
theorem removeFirstTagged_first_notMem (t : String) (d : Doc) (n : Node)
    (h : d.firstTagged t = some n) :
    ((n.idOf?).getD 0) ∉ (removeFirstTagged t d).ids := by
  unfold removeFirstTagged
  rw [h]
  exact notMem_removeId_ids d _

/-- A figure step only ever removes identifiers. -/
theorem figureStep_ids_sub (d : Doc) (fi j : Nat)
    (h : j ∈ (figureStep d fi).ids) : j ∈ d.ids := by
  unfold figureStep at h
  cases hlk : d.lookup fi with
  | none => simp only [hlk] at h; exact h
  | some n =>
    cases n with
    | text s => simp only [hlk] at h; exact h
    | elem k t2 a cs =>
      simp only [hlk] at h
      cases hhd : (findTagsForest ["img"] cs).head? with
      | none => simp only [hhd] at h; exact h
      | some img =>
        simp only [hhd] at h
        by_cases hlogo : looksLikeLogoSrc ((img.attr "src").getD "") = true
        · rw [if_pos hlogo] at h
          exact mem_of_mem_removeId_ids d fi j h
        · rw [if_neg hlogo] at h
          exact h

/-- The figure loop only ever removes identifiers. -/
theorem foldl_figureStep_ids_sub (fids : List Nat) (d : Doc) (j : Nat)
    (h : j ∈ (fids.foldl figureStep d).ids) : j ∈ d.ids := by
  induction fids generalizing d with
  | nil => exact h
  | cons f fs ih => exact figureStep_ids_sub d f j (ih (figureStep d f) h)

/-- The figure-removal pass only ever removes identifiers. -/
theorem removeLogoFigures_ids_sub (d : Doc) (j : Nat)
    (h : j ∈ (removeLogoFigures d).ids) : j ∈ d.ids :=
  foldl_figureStep_ids_sub ((d.findTags ["figure"]).filterMap Node.idOf?) d j h

/-- Inserting the description meta adds exactly the fresh identifier. -/
theorem insertMetaDesc_ids (desc : String) (fresh : Nat) (d : Doc) :
    (insertMetaDesc desc fresh d).ids = fresh :: d.ids := by
  simp [insertMetaDesc, Doc.ids, forestIds, nodeIds]

/-- Counterexample configuration for C10. -/
def c10Cfg : Config := ⟨"doc.html", "-", false, "https", "docs.oasis-open.org", "/"⟩

/-- Counterexample fetch oracle for C10: every fetch succeeds. -/
def c10Env : FetchEnv := ⟨fun _ => true⟩

/-- Counterexample input for C10: a figure whose first image is plain and
whose second image is logo-like. -/
def c10Doc : Doc :=
  ⟨[], [Node.elem 1 "figure" []
          [Node.elem 2 "img" [("src", "a.png")] [],
           Node.elem 3 "img" [("src", "b/OASISLogo-v3.0.png")] []],
        Node.elem 4 "h1" [] [Node.text "T"]]⟩

/-- C10 counterexample: the figure of `c10Doc` wraps a logo-like image
(image 3), so the claim demands its removal; but `fig.find("img")` only
inspects the first image descendant (image 2, `a.png`), which is not
logo-like, so the figure survives the early phase — and the full
post-processing run as well. -/
theorem c10_counterexample :
    looksLikeLogoSrc "b/OASISLogo-v3.0.png" = true ∧
    looksLikeLogoSrc "a.png" = false ∧
    1 ∈ (earlyPhase "-" 100 c10Doc).1.ids ∧
    (postProcessHtml c10Cfg c10Env (⟨[], [], []⟩ : FsState) 100 c10Doc).map
        (fun r => decide (1 ∈ r.1.ids)) = Except.ok true := by
  refine ⟨by decide, by decide, by decide, by decide⟩

/-- C10 amended: the opening phase of `_post_process_html` takes no
configuration besides the meta description, and for every document and
fresh identifier not occurring in it: (i) the first `header` element (when
present) is absent from the phase's output; (ii) the first `base` element
of the document as it stands after header removal and meta insertion is
absent from the output; (iii) a figure whose FIRST descendant image is
logo-like (the weakening the counterexample forces) is removed by its
figure step, for any document and figure; and (iv) the first `nav` element
of the document as it stands before the nav step is absent from the
output. -/
theorem c10_amended (desc : String) (fresh : Nat) (d : Doc) (hfresh : fresh ∉ d.ids) :
    (∀ n, d.firstTagged "header" = some n →
      ((n.idOf?).getD 0) ∉ (earlyPhase desc fresh d).1.ids) ∧
    (∀ n, (insertMetaDesc desc fresh (removeFirstTagged "header" d)).firstTagged "base"
        = some n →
      ((n.idOf?).getD 0) ∉ (earlyPhase desc fresh d).1.ids) ∧
    (∀ (d2 : Doc) (fi : Nat) (t : String) (a : List (String × String)) (cs : List Node)
        (img : Node),
      d2.lookup fi = some (Node.elem fi t a cs) →
      (findTagsForest ["img"] cs).head? = some img →
      looksLikeLogoSrc ((img.attr "src").getD "") = true →
      figureStep d2 fi = d2.removeId fi ∧ fi ∉ (d2.removeId fi).ids) ∧
    (∀ n, (removeLogoFigures (removeFirstTagged "base"
          (insertMetaDesc desc fresh (removeFirstTagged "header" d)))).firstTagged "nav"
        = some n →
      ((n.idOf?).getD 0) ∉ (earlyPhase desc fresh d).1.ids) := by
  refine ⟨?_, ?_, ?_, ?_⟩
  · intro n hn hmem
    have hne : ¬ ((n.idOf?).getD 0) = fresh := by
      intro he
      exact hfresh (he ▸ idOf_firstTagged_mem_ids d "header" n hn)
    have h1 := removeFirstTagged_ids_sub "nav" _ _ hmem
    have h2 := removeLogoFigures_ids_sub _ _ h1
    have h3 := removeFirstTagged_ids_sub "base" _ _ h2
    rw [insertMetaDesc_ids] at h3
    rcases List.mem_cons.1 h3 with h4 | h4
    · exact hne h4
    · exact removeFirstTagged_first_notMem "header" d n hn h4
  · intro n hn hmem
    have h1 := removeFirstTagged_ids_sub "nav" _ _ hmem
    have h2 := removeLogoFigures_ids_sub _ _ h1
    exact removeFirstTagged_first_notMem "base" _ n hn h2
  · intro d2 fi t a cs img hlk hhd hlogo
    constructor
    · unfold figureStep
      rw [hlk]
      simp only [hhd]
      rw [if_pos hlogo]
    · exact notMem_removeId_ids d2 fi
  · intro n hn hmem
    exact removeFirstTagged_first_notMem "nav" _ n hn hmem

/-- Witness input for the amended C10 theorem: a base in the head; a
header, a logo figure and a nav in the body. -/
def c10WitDoc : Doc :=
  ⟨[Node.elem 1 "base" [("href", "https://h/")] []],
   [Node.elem 2 "header" [] [Node.text "hd"],
    Node.elem 3 "figure" [] [Node.elem 4 "img" [("src", "x/OASISLogo-v3.0.png")] []],
    Node.elem 5 "nav" [] [Node.text "nv"],
    Node.elem 6 "h1" [] [Node.text "T"]]⟩

/-- Witness for the amended C10 theorem on `c10WitDoc`: header 2, base 1
and nav 5 are gone from the early phase's output, and the figure step
removes the logo figure. -/
theorem c10_amended_witness :
    (2 ∉ (earlyPhase "-" 100 c10WitDoc).1.ids) ∧
    (1 ∉ (earlyPhase "-" 100 c10WitDoc).1.ids) ∧
    (figureStep (⟨[], [Node.elem 3 "figure" []
        [Node.elem 4 "img" [("src", "x/OASISLogo-v3.0.png")] []]]⟩ : Doc) 3
      = (⟨[], [Node.elem 3 "figure" []
        [Node.elem 4 "img" [("src", "x/OASISLogo-v3.0.png")] []]]⟩ : Doc).removeId 3) ∧
    (5 ∉ (earlyPhase "-" 100 c10WitDoc).1.ids) := by
  have h := c10_amended "-" 100 c10WitDoc (by decide)
  refine ⟨?_, ?_, ?_, ?_⟩
  · exact h.1 (Node.elem 2 "header" [] [Node.text "hd"]) rfl
  · exact h.2.1 (Node.elem 1 "base" [("href", "https://h/")] []) rfl
  · exact (h.2.2.1 (⟨[], [Node.elem 3 "figure" []
        [Node.elem 4 "img" [("src", "x/OASISLogo-v3.0.png")] []]]⟩ : Doc) 3 "figure" []
      [Node.elem 4 "img" [("src", "x/OASISLogo-v3.0.png")] []]
      (Node.elem 4 "img" [("src", "x/OASISLogo-v3.0.png")] []) rfl rfl (by decide)).1
  · exact h.2.2.2 (Node.elem 5 "nav" [] [Node.text "nv"]) rfl


end Csaf
